import Mathlib

/-!
# Verification of the CPT parsing and billing aggregation engine

Shallow embedding of `script.js`: the free-text CPT interpreter `parseCPT`,
the billing aggregator and note composer `buildNote`, and the character
classes of the JavaScript regular expressions they use.

Strings are modelled as `List Char`; the JavaScript regular expressions of
`parseCPT` are embedded as specialised matchers that mirror the backtracking
behaviour of the JS engine exactly: a match is searched at every start
position from the left, taking the first position at which the whole pattern
succeeds, and a greedy `.*` yields the rightmost position at which the
pattern's tail succeeds.
-/

/-- The JavaScript `\s` character class (also the set removed by
`String.prototype.trim`): whitespace and line terminators. -/
def isJsWs (c : Char) : Bool :=
  c == '\t' || c == '\n' || c == '\x0b' || c == '\x0c' || c == '\r' || c == ' ' ||
  c == ' ' || c == ' ' || (8192 ≤ c.toNat && c.toNat ≤ 8202) ||
  c == ' ' || c == ' ' || c == ' ' || c == ' ' ||
  c == '　' || c == '﻿'

/-- JavaScript line terminators, the characters `.` does not match. -/
def isLineTerm (c : Char) : Bool :=
  c == '\n' || c == '\r' || c == ' ' || c == ' '

/-- The JavaScript `\d` character class: the ASCII digits `0`-`9`. -/
def isDigit (c : Char) : Bool :=
  48 ≤ c.toNat && c.toNat ≤ 57

/-- `\s*`: greedily skip whitespace. -/
def skipWs (l : List Char) : List Char :=
  l.dropWhile isJsWs

/-- Numeric value of a digit character. -/
def digitVal (c : Char) : Nat := c.toNat - 48

/-- `parseInt(s, 10)` on an all-digit string. -/
def toNatOfDigits (l : List Char) : Nat :=
  l.foldl (fun a c => 10 * a + digitVal c) 0

/-- `(\d+)`: greedily read a non-empty digit run and its value. -/
def readDigits (l : List Char) : Option (Nat × List Char) :=
  match l.takeWhile isDigit with
  | [] => none
  | ds => some (toNatOfDigits ds, l.dropWhile isDigit)

/-- `(\d{5})` anchored at the current position: exactly five digit
characters, returned together with the rest of the input. -/
def take5 : List Char → Option (List Char × List Char)
  | a :: b :: c :: d :: e :: rest =>
    if isDigit a && isDigit b && isDigit c && isDigit d && isDigit e then
      some ([a, b, c, d, e], rest)
    else none
  | _ => none

/-- Pattern 1, `(\d{5})\s*[x×]\s*(\d+)` with `/i`, anchored at the current
position: code, optional whitespace, a multiplication marker, optional
whitespace, then the unit count. -/
def p1At (l : List Char) : Option (List Char × Nat) :=
  match take5 l with
  | none => none
  | some (code, r1) =>
    match skipWs r1 with
    | [] => none
    | m :: r2 =>
      if m == 'x' || m == 'X' || m == '×' then
        match readDigits (skipWs r2) with
        | some (n, _) => some (code, n)
        | none => none
      else none

/-- Pattern 1 searched from the left: the JS engine tries every start
position in order and takes the first full match. -/
def p1 : List Char → Option (List Char × Nat)
  | [] => none
  | c :: rest =>
    match p1At (c :: rest) with
    | some r => some r
    | none => p1 rest

/-- The literal `unit` matched case-insensitively, returning the rest. -/
def unitKw : List Char → Option (List Char)
  | u :: n :: i :: t :: rest =>
    if (u == 'u' || u == 'U') && (n == 'n' || n == 'N') &&
       (i == 'i' || i == 'I') && (t == 't' || t == 'T') then
      some rest
    else none
  | _ => none

/-- `[:=]?`: greedily consume one `:` or `=` when present. -/
def sepOpt (l : List Char) : List Char :=
  match l with
  | c :: rest => if c == ':' || c == '=' then rest else c :: rest
  | [] => []

/-- `\s*[:=]?\s*(\d+)`: the part of pattern 2's tail after the keyword. -/
def tail2Num (l : List Char) : Option Nat :=
  match readDigits (skipWs (sepOpt (skipWs l))) with
  | some (n, _) => some n
  | none => none

/-- Pattern 2's tail `units?\s*[:=]?\s*(\d+)` (case-insensitive) anchored at
the current position.  The optional `s?` can be committed: when the character
after `unit` is an `s` but the rest fails, retrying without consuming the `s`
fails as well, since `s` is neither whitespace, a separator nor a digit. -/
def tail2At (l : List Char) : Option Nat :=
  match unitKw l with
  | none => none
  | some rest =>
    match rest with
    | [] => tail2Num []
    | s :: r2 => if s == 's' || s == 'S' then tail2Num r2 else tail2Num (s :: r2)

/-- The greedy `.*` before a pattern tail: the tail is tried at every
position reachable by `.` (which does not cross a line terminator), from the
rightmost position back to the current one, taking the first success. -/
def rmAt (f : List Char → Option Nat) : List Char → Option Nat
  | [] => f []
  | c :: rest =>
    if isLineTerm c then f (c :: rest)
    else
      match rmAt f rest with
      | some n => some n
      | none => f (c :: rest)

/-- Pattern 2, `(\d{5}).*units?\s*[:=]?\s*(\d+)` with `/i`, anchored at the
current position. -/
def p2At (l : List Char) : Option (List Char × Nat) :=
  match take5 l with
  | none => none
  | some (code, rest) =>
    match rmAt tail2At rest with
    | some n => some (code, n)
    | none => none

/-- Pattern 2 searched from the left. -/
def p2 : List Char → Option (List Char × Nat)
  | [] => none
  | c :: rest =>
    match p2At (c :: rest) with
    | some r => some r
    | none => p2 rest

/-- The literal `min` matched case-insensitively at the current position. -/
def minKw : List Char → Bool
  | m :: i :: n :: _ =>
    (m == 'm' || m == 'M') && (i == 'i' || i == 'I') && (n == 'n' || n == 'N')
  | _ => false

/-- The part of pattern 3's tail after the optional `(`:
`\s*(\d{1,3})\s*min\s*\)?`.  `\d{1,3}` is greedy with backtracking: it can
only succeed when the maximal digit run at the position has length 1 to 3,
since a shorter take leaves a digit where `min` is required; the trailing
`\s*\)?` always matches. -/
def tail3Core (l : List Char) : Option Nat :=
  let l2 := skipWs l
  let run := l2.takeWhile isDigit
  if run.length == 0 || 3 < run.length then none
  else if minKw (skipWs (l2.dropWhile isDigit)) then some (toNatOfDigits run)
  else none

/-- Pattern 3's tail `\(?\s*(\d{1,3})\s*min\s*\)?` (case-insensitive)
anchored at the current position.  Like `s?` in pattern 2, the optional `\(?`
can be committed: retrying without consuming a `(` fails at the digit. -/
def tail3At (l : List Char) : Option Nat :=
  match l with
  | [] => tail3Core []
  | c :: rest => if c == '(' then tail3Core rest else tail3Core (c :: rest)

/-- Pattern 3, `(\d{5}).*\(?\s*(\d{1,3})\s*min\s*\)?` with `/i`, anchored at
the current position. -/
def p3At (l : List Char) : Option (List Char × Nat) :=
  match take5 l with
  | none => none
  | some (code, rest) =>
    match rmAt tail3At rest with
    | some n => some (code, n)
    | none => none

/-- Pattern 3 searched from the left. -/
def p3 : List Char → Option (List Char × Nat)
  | [] => none
  | c :: rest =>
    match p3At (c :: rest) with
    | some r => some r
    | none => p3 rest

/-- Pattern 4, `(\d{5})` searched from the left: the first five-digit run. -/
def p4 : List Char → Option (List Char)
  | [] => none
  | c :: rest =>
    match take5 (c :: rest) with
    | some (code, _) => some code
    | none => p4 rest

/-- `Math.ceil(m / 15)` on a natural number. -/
def ceil15 (m : Nat) : Nat := (m + 14) / 15

/-- One interpreted procedure-code line, `{code, units, minutes, raw}`. -/
structure CptEntry where
  code : String
  units : Nat
  minutes : Nat
  raw : String
deriving DecidableEq

/-- The body of `parseCPT`'s loop: try the four patterns in priority order
on one trimmed line; if nothing matches, keep the raw line as the code with
zero units. -/
def parseLine (l : List Char) : CptEntry :=
  match p1 l with
  | some (code, n) => ⟨String.mk code, n, n * 15, String.mk l⟩
  | none =>
  match p2 l with
  | some (code, n) => ⟨String.mk code, n, n * 15, String.mk l⟩
  | none =>
  match p3 l with
  | some (code, n) =>
    let units := ceil15 n
    ⟨String.mk code, units, units * 15, String.mk l⟩
  | none =>
  match p4 l with
  | some code => ⟨String.mk code, 1, 15, String.mk l⟩
  | none => ⟨String.mk l, 0, 0, String.mk l⟩

/-- `text.split(/\r?\n/)`. -/
def splitLines : List Char → List (List Char)
  | [] => [[]]
  | '\r' :: '\n' :: rest => [] :: splitLines rest
  | '\n' :: rest => [] :: splitLines rest
  | c :: rest =>
    match splitLines rest with
    | l :: ls => (c :: l) :: ls
    | [] => [[c]]

/-- `String.prototype.trim`. -/
def jsTrim (l : List Char) : List Char :=
  ((l.dropWhile isJsWs).reverse.dropWhile isJsWs).reverse

/-- `text.split(/\r?\n/).map(l => l.trim()).filter(Boolean)`. -/
def cleanLines (t : List Char) : List (List Char) :=
  ((splitLines t).map jsTrim).filter (fun l => !l.isEmpty)

/-- `parseCPT`: split into trimmed non-blank lines and interpret each one. -/
def parseCPT (text : String) : List CptEntry :=
  (cleanLines text.data).map parseLine

/-- One CPT summary line of `buildNote`: the parsed rendering for an entry
with positive units, the `(unparsed)` marker otherwise. -/
def renderEntry (e : CptEntry) : String :=
  if 0 < e.units then
    e.code ++ " x " ++ toString e.units ++ " unit(s) (" ++ toString e.minutes ++ " min)"
  else
    e.raw ++ " (unparsed)"

/-- A separator character of the ICD-10 blob: `[\n,]`. -/
def isIcdSep (c : Char) : Bool :=
  c == '\n' || c == ','

/-- `icd.split(/[\n,]+/)`: a run of separators acts as a single split
point, so no empty token is produced between two adjacent separators. -/
def splitIcd : List Char → List (List Char)
  | [] => [[]]
  | c :: rest =>
    if isIcdSep c then
      match rest with
      | [] => [[], []]
      | r :: rs => if isIcdSep r then splitIcd (r :: rs) else [] :: splitIcd (r :: rs)
    else
      match splitIcd rest with
      | l :: ls => (c :: l) :: ls
      | [] => [[c]]

/-- `icd.split(/[\n,]+/).map(s=>s.trim()).filter(Boolean).join(', ')`. -/
def icdPrettyFn (icd : String) : String :=
  String.intercalate ", "
    ((((splitIcd icd.data).map jsTrim).filter (fun l => !l.isEmpty)).map
      (fun l => String.mk l))

/-- The form fields consumed by `buildNote`.  The session-duration field is
an optional natural number (`none` models an empty field, which is falsy
in the JavaScript truthiness test). -/
structure Fields where
  childName : String
  date : String
  therapist : String
  duration : Option Nat
  icd : String
  cptRaw : String
  S : String
  O : String
  A : String
  P : String

/-- The value returned by `buildNote`. -/
structure NoteResult where
  note : String
  cptEntries : List CptEntry
  totalMinutes : Nat
  totalUnits : Nat
  icdPretty : String

/-- `s || placeholder` on a string field. -/
def orPlaceholder (s p : String) : String :=
  if s == "" then p else s

/-- `duration || '_____'`. -/
def durationField (d : Option Nat) : String :=
  match d with
  | some n => toString n
  | none => "_____"

/-- The note template of `buildNote` (lines 88-114 of the source). -/
def noteTemplate (f : Fields) (cptSummaryLines : List String)
    (totalMinutes totalUnits : Nat) (icdPretty : String) : String :=
  "Pediatric Occupational Therapy SOAP Note\nChild: " ++
  orPlaceholder f.childName "________________" ++ "\nDate: " ++
  orPlaceholder f.date "____/__/__" ++ "\nTherapist: " ++
  orPlaceholder f.therapist "________________" ++
  "\nSession Duration (documented): " ++ durationField f.duration ++
  " min\n\nICD-10 Codes:\n" ++ orPlaceholder icdPretty "________________" ++
  "\n\nCPT Codes (calculated):\n" ++
  (if cptSummaryLines.isEmpty then "________________"
   else String.intercalate "\n" cptSummaryLines) ++
  "\nTotal billed time (calculated): " ++ toString totalMinutes ++ " min (" ++
  toString totalUnits ++ " unit(s) x 15 min)\n\nS — Subjective:\n" ++
  orPlaceholder f.S "________________" ++ "\n\nO — Objective:\n" ++
  orPlaceholder f.O "________________" ++ "\n\nA — Assessment:\n" ++
  orPlaceholder f.A "________________" ++ "\n\nP — Plan:\n" ++
  orPlaceholder f.P "________________" ++
  "\n\nTherapist Signature: _________________________      Date: " ++
  orPlaceholder f.date "____/__/__"

/-- `buildNote`: parse the CPT blob, sum the minutes, apply the fallback
duration when the sum is zero and the duration field is truthy, derive the
unit total, render the summary lines, the ICD list and the note. -/
def buildNote (f : Fields) : NoteResult :=
  let cptEntries := parseCPT f.cptRaw
  let sum0 := cptEntries.foldl (fun s e => s + e.minutes) 0
  let totalMinutes := if sum0 == 0 && f.duration.isSome then f.duration.getD 0 else sum0
  let totalUnits := ceil15 totalMinutes
  let cptSummaryLines := cptEntries.map renderEntry
  let icdPretty := icdPrettyFn f.icd
  ⟨noteTemplate f cptSummaryLines totalMinutes totalUnits icdPretty,
   cptEntries, totalMinutes, totalUnits, icdPretty⟩

/-- Whether some position of the line starts a five-digit run. -/
def hasFive : List Char → Bool
  | [] => false
  | c :: rest => (take5 (c :: rest)).isSome || hasFive rest

/-- Modelled from the spec (for comparison): splitting the ICD-10 blob at
every single newline or comma, as the claim's words describe, instead of at
runs of them. -/
def splitSingle : List Char → List (List Char)
  | [] => [[]]
  | c :: rest =>
    if isIcdSep c then [] :: splitSingle rest
    else
      match splitSingle rest with
      | l :: ls => (c :: l) :: ls
      | [] => [[c]]

/-- Order-preserving first-occurrence deduplication. -/
def dedupFirstAux (seen : List String) : List String → List String
  | [] => []
  | x :: xs => if x ∈ seen then dedupFirstAux seen xs else x :: dedupFirstAux (x :: seen) xs

/-- Modelled from the spec (for comparison): the ICD-10 normalisation as the
claim states it, including the deduplication step the code does not have. -/
def icdPrettyClaimed (icd : String) : String :=
  String.intercalate ", "
    (dedupFirstAux []
      ((((splitSingle icd.data).map jsTrim).filter (fun l => !l.isEmpty)).map
        (fun l => String.mk l)))

/-- The trim-and-drop-blanks step shared by `cleanLines` and `icdPrettyFn`. -/
def trimmedTokens (ls : List (List Char)) : List (List Char) :=
  (ls.map jsTrim).filter (fun l => !l.isEmpty)

/-- Sample form fields used by witnesses: no parsable CPT line and a
supplied fallback duration of 45 minutes. -/
def sampleFields : Fields :=
  ⟨"", "", "", some 45, "", "no codes here", "", "", "", ""⟩

/-! ## Basic lemmas about the entry construction -/

lemma parseLine_minutes (l : List Char) :
    (parseLine l).minutes = (parseLine l).units * 15 := by
  rcases h1 : p1 l with _ | ⟨code1, n1⟩
  · rcases h2 : p2 l with _ | ⟨code2, n2⟩
    · rcases h3 : p3 l with _ | ⟨code3, n3⟩
      · rcases h4 : p4 l with _ | code4
        · simp [parseLine, h1, h2, h3, h4]
        · simp [parseLine, h1, h2, h3, h4]
      · simp [parseLine, h1, h2, h3]
    · simp [parseLine, h1, h2]
  · simp [parseLine, h1]

lemma parseLine_raw (l : List Char) : (parseLine l).raw = String.mk l := by
  rcases h1 : p1 l with _ | ⟨code1, n1⟩
  · rcases h2 : p2 l with _ | ⟨code2, n2⟩
    · rcases h3 : p3 l with _ | ⟨code3, n3⟩
      · rcases h4 : p4 l with _ | code4
        · simp [parseLine, h1, h2, h3, h4]
        · simp [parseLine, h1, h2, h3, h4]
      · simp [parseLine, h1, h2, h3]
    · simp [parseLine, h1, h2]
  · simp [parseLine, h1]

lemma foldl_add_minutes (es : List CptEntry) (a : Nat) :
    es.foldl (fun s e => s + e.minutes) a = a + (es.map (fun e => e.minutes)).sum := by
  induction es generalizing a with
  | nil => simp
  | cons e es ih => rw [List.foldl_cons, ih]; simp [List.sum_cons]; omega

lemma buildNote_totalMinutes (f : Fields) :
    (buildNote f).totalMinutes =
      (if ((parseCPT f.cptRaw).foldl (fun s e => s + e.minutes) 0) == 0 && f.duration.isSome
       then f.duration.getD 0
       else (parseCPT f.cptRaw).foldl (fun s e => s + e.minutes) 0) := rfl

/-! ## Theorems for the claims (part 1) -/

/-- C1: at the failing input `"97530 (20 min)"` the code does not interpret
the annotation as 20 minutes.  The greedy `.*` of pattern 3 hands the tail
only the last digit of the annotation (`"0"`), so the entry gets
`units = ceil(0 / 15) = 0` and `minutes = 0` — not the claimed `units = 2`,
`minutes = 30` — contradicting the parser's own header comment, which says a
minutes annotation in parentheses yields `units = minutes / 15`. -/
theorem c1_minutes_annotation_bug :
    parseCPT "97530 (20 min)" = [⟨"97530", 0, 0, "97530 (20 min)"⟩] := by decide

/-- C2: `totalMinutes` is the sum of the entries' minutes, except that a
zero sum is replaced by a supplied non-zero fallback duration; a zero sum
with no fallback stays zero. -/
theorem c2_total_minutes (f : Fields) :
    (((buildNote f).cptEntries.map (fun e => e.minutes)).sum ≠ 0 →
      (buildNote f).totalMinutes = ((buildNote f).cptEntries.map (fun e => e.minutes)).sum) ∧
    (∀ d : Nat, ((buildNote f).cptEntries.map (fun e => e.minutes)).sum = 0 →
      f.duration = some d → d ≠ 0 → (buildNote f).totalMinutes = d) ∧
    (((buildNote f).cptEntries.map (fun e => e.minutes)).sum = 0 →
      f.duration = none → (buildNote f).totalMinutes = 0) := by
  have hc : (buildNote f).cptEntries = parseCPT f.cptRaw := rfl
  have hb := buildNote_totalMinutes f
  have hfold : (parseCPT f.cptRaw).foldl (fun s e => s + e.minutes) 0
      = ((parseCPT f.cptRaw).map (fun e => e.minutes)).sum := by
    simpa using foldl_add_minutes (parseCPT f.cptRaw) 0
  rw [hfold] at hb
  rw [hc]
  refine ⟨?_, ?_, ?_⟩
  · intro hs
    have : (((parseCPT f.cptRaw).map (fun e => e.minutes)).sum == 0) = false :=
      beq_eq_false_iff_ne.mpr hs
    simpa [this] using hb
  · intro d hs hd hd0
    have h0 : (((parseCPT f.cptRaw).map (fun e => e.minutes)).sum == 0) = true :=
      beq_iff_eq.mpr hs
    simpa [h0, hd] using hb
  · intro hs hd
    simpa [hd, hs] using hb

/-- C3: the aggregator's unit total is `ceil(totalMinutes / 15)`, the
smallest unit count covering `totalMinutes`; multiples of 15 are not
inflated and non-multiples are not truncated (30 → 2, 31 → 3, 0 → 0). -/
theorem c3_total_units (f : Fields) (m k : Nat) (hk : m ≤ 15 * k) :
    (buildNote f).totalUnits = ceil15 ((buildNote f).totalMinutes) ∧
    m ≤ 15 * ceil15 m ∧ ceil15 m ≤ k ∧
    ceil15 30 = 2 ∧ ceil15 31 = 3 ∧ ceil15 0 = 0 := by
  refine ⟨rfl, ?_, ?_, by decide, by decide, by decide⟩
  · unfold ceil15; omega
  · unfold ceil15; omega

/-- C7: every entry produced by the parser satisfies
`minutes = units * 15` whenever `units > 0`. -/
theorem c7_minutes_units_invariant (text : String) (e : CptEntry)
    (he : e ∈ parseCPT text) (hu : 0 < e.units) : e.minutes = e.units * 15 := by
  rcases List.mem_map.mp he with ⟨l, _, rfl⟩
  exact parseLine_minutes l

/-- C4, counterexample: in `"97530 a x 2"` a multiplication marker and an
integer follow the code later in the line, but the explicit-count pattern
requires the marker to follow the code with only whitespace in between, so
the line falls through to the bare-code strategy and yields one unit, not
two. -/
theorem c4_counterexample :
    parseCPT "97530 a x 2" = [⟨"97530", 1, 15, "97530 a x 2"⟩] := by decide

/-- C8, counterexample: in `"12345 97530 x 2"` the first five-digit run is
`12345`, but the explicit-count strategy matches at `97530`, the first
position where its whole pattern succeeds, so the entry's code is not the
first five-digit run of the line. -/
theorem c8_counterexample :
    parseCPT "12345 97530 x 2" = [⟨"97530", 2, 30, "12345 97530 x 2"⟩] ∧
    p4 ("12345 97530 x 2".data) = some ("12345".data) := by decide

theorem c2_total_minutes_witness : (buildNote sampleFields).totalMinutes = 45 :=
  (c2_total_minutes sampleFields).2.1 45 (by decide) rfl (by decide)

theorem c3_total_units_witness :
    (buildNote sampleFields).totalUnits = ceil15 ((buildNote sampleFields).totalMinutes) ∧
    31 ≤ 15 * ceil15 31 ∧ ceil15 31 ≤ 3 ∧
    ceil15 30 = 2 ∧ ceil15 31 = 3 ∧ ceil15 0 = 0 :=
  c3_total_units sampleFields 31 3 (by decide)

theorem c7_minutes_units_invariant_witness :
    (⟨"97530", 2, 30, "97530 x 2"⟩ : CptEntry).minutes =
      (⟨"97530", 2, 30, "97530 x 2"⟩ : CptEntry).units * 15 :=
  c7_minutes_units_invariant "97530 x 2" ⟨"97530", 2, 30, "97530 x 2"⟩
    (by decide) (by decide)

/-! ## Lines with no five-digit run (C5) -/

lemma hasFive_false_elim {c : Char} {rest : List Char} (h : hasFive (c :: rest) = false) :
    take5 (c :: rest) = none ∧ hasFive rest = false := by
  unfold hasFive at h
  rcases Bool.or_eq_false_iff.mp h with ⟨h1, h2⟩
  refine ⟨?_, h2⟩
  cases ht : take5 (c :: rest) with
  | none => rfl
  | some v => rw [ht] at h1; simp at h1

lemma p1_none_of_noFive : ∀ l, hasFive l = false → p1 l = none := by
  intro l
  induction l with
  | nil => intro h; rfl
  | cons c rest ih =>
    intro h
    obtain ⟨h1, h2⟩ := hasFive_false_elim h
    simp [p1, p1At, h1, ih h2]

lemma p2_none_of_noFive : ∀ l, hasFive l = false → p2 l = none := by
  intro l
  induction l with
  | nil => intro h; rfl
  | cons c rest ih =>
    intro h
    obtain ⟨h1, h2⟩ := hasFive_false_elim h
    simp [p2, p2At, h1, ih h2]

lemma p3_none_of_noFive : ∀ l, hasFive l = false → p3 l = none := by
  intro l
  induction l with
  | nil => intro h; rfl
  | cons c rest ih =>
    intro h
    obtain ⟨h1, h2⟩ := hasFive_false_elim h
    simp [p3, p3At, h1, ih h2]

lemma p4_none_of_noFive : ∀ l, hasFive l = false → p4 l = none := by
  intro l
  induction l with
  | nil => intro h; rfl
  | cons c rest ih =>
    intro h
    obtain ⟨h1, h2⟩ := hasFive_false_elim h
    simp [p4, h1, ih h2]

/-- C5: a line with no five-digit run anywhere becomes the fallback entry —
the whole line as `code`, zero units, zero minutes — which the composer
renders with the `(unparsed)` marker instead of the parsed form used for
every entry with positive units; parsing never aborts, every non-blank line
of any text yields exactly one entry. -/
theorem c5_unparsed_fallback (l : List Char) (text : String) (e : CptEntry)
    (h : hasFive l = false) :
    parseLine l = ⟨String.mk l, 0, 0, String.mk l⟩ ∧
    renderEntry (parseLine l) = String.mk l ++ " (unparsed)" ∧
    (0 < e.units → renderEntry e =
      e.code ++ " x " ++ toString e.units ++ " unit(s) (" ++ toString e.minutes ++ " min)") ∧
    (parseCPT text).length = (cleanLines text.data).length := by
  have hp : parseLine l = ⟨String.mk l, 0, 0, String.mk l⟩ := by
    simp [parseLine, p1_none_of_noFive l h, p2_none_of_noFive l h,
      p3_none_of_noFive l h, p4_none_of_noFive l h]
  refine ⟨hp, ?_, ?_, ?_⟩
  · rw [hp]; simp [renderEntry]
  · intro hu; simp [renderEntry, hu]
  · simp [parseCPT]

theorem c5_unparsed_fallback_witness :
    parseLine ("unrecognized text".data) =
      ⟨"unrecognized text", 0, 0, "unrecognized text"⟩ :=
  (c5_unparsed_fallback ("unrecognized text".data) "a"
    ⟨"97530", 2, 30, "97530 x 2"⟩ (by decide)).1

/-! ## Line splitting (C10) -/

lemma splitLines_sub : ∀ (t : List Char), ∀ l ∈ splitLines t, ∀ c ∈ l, c ∈ t := by
  intro t
  induction t using splitLines.induct with
  | case1 =>
    intro l hl c hc
    simp [splitLines] at hl
    subst hl
    simp at hc
  | case2 rest ih =>
    intro l hl c hc
    simp only [splitLines] at hl
    rcases List.mem_cons.mp hl with h | h
    · subst h; simp at hc
    · have := ih l h c hc
      simp [this]
  | case3 rest ih =>
    intro l hl c hc
    simp only [splitLines] at hl
    rcases List.mem_cons.mp hl with h | h
    · subst h; simp at hc
    · have := ih l h c hc
      simp [this]
  | case4 c rest hne1 hne2 l0 ls hrec ih =>
    intro l hl x hx
    rw [splitLines] at hl
    rotate_left
    · exact hne1
    · exact hne2
    rw [hrec] at hl
    rcases List.mem_cons.mp hl with h | h
    · subst h
      rcases List.mem_cons.mp hx with h | h
      · simp [h]
      · have : x ∈ rest := ih l0 (by rw [hrec]; exact List.mem_cons_self l0 ls) x h
        simp [this]
    · have : x ∈ rest := ih l (by rw [hrec]; exact List.mem_cons_of_mem l0 h) x hx
      simp [this]
  | case5 c rest hne1 hne2 hrec ih =>
    intro l hl x hx
    rw [splitLines] at hl
    rotate_left
    · exact hne1
    · exact hne2
    rw [hrec] at hl
    rcases List.mem_cons.mp hl with h | h
    · subst h
      rcases List.mem_cons.mp hx with h | h
      · simp [h]
      · simp at h
    · simp at h

lemma dropWhile_eq_nil_of_all {p : Char → Bool} :
    ∀ l : List Char, (∀ c ∈ l, p c = true) → l.dropWhile p = [] := by
  intro l h
  induction l with
  | nil => rfl
  | cons c rest ih =>
    rw [List.dropWhile_cons, if_pos (h c (List.mem_cons_self c rest))]
    exact ih (fun x hx => h x (List.mem_cons_of_mem c hx))

lemma jsTrim_nil_of_all {l : List Char} (h : ∀ c ∈ l, isJsWs c = true) :
    jsTrim l = [] := by
  unfold jsTrim
  rw [dropWhile_eq_nil_of_all l h]
  simp

/-- C10: the parser splits on newlines, trims each line and drops the blank
ones: the entries' `raw` fields are exactly the trimmed non-blank lines, in
order, and an all-whitespace (in particular empty) input yields no entry. -/
theorem c10_line_splitting (text : String) :
    (parseCPT text).map (fun e => e.raw) =
      (cleanLines text.data).map (fun l => String.mk l) ∧
    ((∀ c ∈ text.data, isJsWs c = true) → parseCPT text = []) := by
  constructor
  · unfold parseCPT
    rw [List.map_map]
    exact List.map_congr_left (fun l _ => parseLine_raw l)
  · intro hws
    unfold parseCPT
    have hclean : cleanLines text.data = [] := by
      unfold cleanLines
      rw [List.filter_eq_nil_iff]
      intro a ha
      rcases List.mem_map.mp ha with ⟨l, hl, rfl⟩
      have : jsTrim l = [] :=
        jsTrim_nil_of_all (fun c hc => hws c (splitLines_sub text.data l hl c hc))
      simp [this]
    simp [hclean]

theorem c10_line_splitting_witness : parseCPT "  \n \t" = [] :=
  (c10_line_splitting "  \n \t").2 (by decide)

/-! ## ICD-10 normalisation (C9) -/

lemma trimmedTokens_cons (x : List Char) (xs : List (List Char)) :
    trimmedTokens (x :: xs) =
      if (jsTrim x).isEmpty then trimmedTokens xs else jsTrim x :: trimmedTokens xs := by
  by_cases h : (jsTrim x).isEmpty <;> simp [trimmedTokens, List.filter_cons, h]

lemma splitAgree : ∀ l : List Char,
    ∃ t ts ts', splitIcd l = t :: ts ∧ splitSingle l = t :: ts' ∧
      trimmedTokens ts = trimmedTokens ts' ∧
      (∀ c r, l = c :: r → isIcdSep c = true → t = []) := by
  intro l
  induction l with
  | nil => exact ⟨[], [], [], rfl, rfl, rfl, fun c r h _ => by cases h⟩
  | cons c rest ih =>
    obtain ⟨t, ts, ts', h1, h2, h3, h4⟩ := ih
    cases hc : isIcdSep c with
    | false =>
      refine ⟨c :: t, ts, ts', ?_, ?_, h3, ?_⟩
      · rw [splitIcd.eq_def]
        simp [hc, h1]
      · rw [splitSingle.eq_def]
        simp [hc, h2]
      · intro c' r' he hsep
        injection he with he1 he2
        subst he1
        rw [hc] at hsep
        exact Bool.noConfusion hsep
    | true =>
      cases rest with
      | nil =>
        refine ⟨[], [[]], [[]], ?_, ?_, rfl, fun _ _ _ _ => rfl⟩
        · rw [splitIcd.eq_def]
          simp [hc]
        · rw [splitSingle.eq_def]
          simp [hc]
          rw [splitSingle.eq_def]
      | cons r rs =>
        cases hr : isIcdSep r with
        | true =>
          have ht : t = [] := h4 r rs rfl hr
          refine ⟨[], ts, t :: ts', ?_, ?_, ?_, fun _ _ _ _ => rfl⟩
          · have hstep : splitIcd (c :: r :: rs) = splitIcd (r :: rs) := by
              rw [splitIcd.eq_def]
              simp [hc, hr]
            rw [hstep, h1, ht]
          · have hstep : splitSingle (c :: r :: rs) = [] :: splitSingle (r :: rs) := by
              rw [splitSingle.eq_def]
              simp [hc]
            rw [hstep, h2]
          · rw [ht, trimmedTokens_cons]
            simpa [jsTrim] using h3
        | false =>
          refine ⟨[], t :: ts, t :: ts', ?_, ?_, ?_, fun _ _ _ _ => rfl⟩
          · have hstep : splitIcd (c :: r :: rs) = [] :: splitIcd (r :: rs) := by
              rw [splitIcd.eq_def]
              simp [hc, hr]
            rw [hstep, h1]
          · have hstep : splitSingle (c :: r :: rs) = [] :: splitSingle (r :: rs) := by
              rw [splitSingle.eq_def]
              simp [hc]
            rw [hstep, h2]
          · rw [trimmedTokens_cons, trimmedTokens_cons, h3]

/-- C9, counterexample: the composed ICD-10 list is not deduplicated — the
input `"E11.9,E11.9"` renders both occurrences, while the claimed
normalisation (with first-occurrence deduplication) would keep one. -/
theorem c9_counterexample :
    (buildNote ⟨"", "", "", none, "E11.9,E11.9", "", "", "", "", ""⟩).icdPretty =
      "E11.9, E11.9" ∧
    icdPrettyClaimed "E11.9,E11.9" = "E11.9" := by decide

/-- C9, amended: the composed ICD-10 list is obtained by splitting on
newlines and commas, trimming each token, dropping empty tokens and joining
with a comma and a space — with no deduplication.  Splitting on separator
runs (as the code does) and splitting on single separators (as the claim
words it) agree once empty tokens are dropped; the spec's own example still
normalises as stated. -/
theorem c9_icd_normalization (f : Fields) :
    (buildNote f).icdPretty =
      String.intercalate ", "
        ((((splitSingle f.icd.data).map jsTrim).filter (fun l => !l.isEmpty)).map
          (fun l => String.mk l)) ∧
    (buildNote ⟨"", "", "", none, "E11.9, F80.1\nR62.0", "", "", "", "", ""⟩).icdPretty =
      "E11.9, F80.1, R62.0" := by
  constructor
  · obtain ⟨t, ts, ts', h1, h2, h3, -⟩ := splitAgree f.icd.data
    have hmain : trimmedTokens (splitIcd f.icd.data) =
        trimmedTokens (splitSingle f.icd.data) := by
      rw [h1, h2, trimmedTokens_cons, trimmedTokens_cons, h3]
    show String.intercalate ", " ((trimmedTokens (splitIcd f.icd.data)).map
        (fun l => String.mk l)) =
      String.intercalate ", " ((trimmedTokens (splitSingle f.icd.data)).map
        (fun l => String.mk l))
    rw [hmain]
  · decide

/-! ## Character-class and scanning lemmas -/

lemma dropWhile_append_of_all {p : Char → Bool} :
    ∀ (a b : List Char), (∀ c ∈ a, p c = true) →
      List.dropWhile p (a ++ b) = List.dropWhile p b := by
  intro a b h
  induction a with
  | nil => rfl
  | cons c rest ih =>
    rw [List.cons_append, List.dropWhile_cons, if_pos (h c (List.mem_cons_self c rest))]
    exact ih (fun x hx => h x (List.mem_cons_of_mem c hx))

lemma takeWhile_eq_self_of_all {p : Char → Bool} :
    ∀ l : List Char, (∀ c ∈ l, p c = true) → l.takeWhile p = l := by
  intro l h
  induction l with
  | nil => rfl
  | cons c rest ih =>
    rw [List.takeWhile_cons, if_pos (h c (List.mem_cons_self c rest))]
    rw [ih (fun x hx => h x (List.mem_cons_of_mem c hx))]

lemma isJsWs_char_facts {c : Char} (h : isJsWs c = true) :
    c.toNat = 9 ∨ c.toNat = 10 ∨ c.toNat = 11 ∨ c.toNat = 12 ∨ c.toNat = 13 ∨
    c.toNat = 32 ∨ c.toNat = 160 ∨ c.toNat = 5760 ∨
    (8192 ≤ c.toNat ∧ c.toNat ≤ 8202) ∨ c.toNat = 8232 ∨ c.toNat = 8233 ∨
    c.toNat = 8239 ∨ c.toNat = 8287 ∨ c.toNat = 12288 ∨ c.toNat = 65279 := by
  simp only [isJsWs, Bool.or_eq_true, beq_iff_eq, Bool.and_eq_true,
    decide_eq_true_eq] at h
  rcases h with ((((((((((((((h|h)|h)|h)|h)|h)|h)|h)|h)|h)|h)|h)|h)|h)|h)
  all_goals first
    | omega
    | (subst h; decide)

lemma isDigit_toNat {c : Char} (h : isDigit c = true) :
    48 ≤ c.toNat ∧ c.toNat ≤ 57 := by
  simpa [isDigit, Bool.and_eq_true, decide_eq_true_eq] using h

lemma isDigit_not_isJsWs {c : Char} (h : isDigit c = true) : isJsWs c = false := by
  cases hw : isJsWs c
  · rfl
  · exfalso
    have hb := isDigit_toNat h
    rcases isJsWs_char_facts hw with h'|h'|h'|h'|h'|h'|h'|h'|h'|h'|h'|h'|h'|h'|h' <;> omega

lemma isDigit_ne {c d : Char} (hc : isDigit c = true) (hd : isDigit d = false) :
    c ≠ d := by
  intro he
  rw [he, hd] at hc
  exact Bool.noConfusion hc

lemma skipWs_simple {w : List Char} (hw : ∀ x ∈ w, x = ' ' ∨ x = '\t')
    (X : List Char) : skipWs (w ++ X) = skipWs X := by
  unfold skipWs
  exact dropWhile_append_of_all w X (fun x hx => by rcases hw x hx with rfl | rfl <;> decide)

lemma skipWs_digit {dh : Char} {dt : List Char} (hdh : isDigit dh = true) :
    skipWs (dh :: dt) = dh :: dt := by
  simp [skipWs, List.dropWhile_cons, isDigit_not_isJsWs hdh]

lemma readDigits_all {ds : List Char} (h : ∀ x ∈ ds, isDigit x = true)
    (hne : ds ≠ []) : readDigits ds = some (toNatOfDigits ds, []) := by
  cases ds with
  | nil => exact absurd rfl hne
  | cons dh dt =>
    unfold readDigits
    rw [takeWhile_eq_self_of_all _ h, dropWhile_eq_nil_of_all _ h]

/-! ## The explicit-count form (C4) -/

/-- C4, amended: the explicit-count strategy requires the multiplication
marker (`x`, `X` or the multiplication sign) to follow the five-digit code
immediately, separated only by whitespace — not anywhere later in the line;
then the integer after the marker gives `units = n` and `minutes = n * 15`. -/
theorem c4_explicit_count (a b c d e m : Char) (w1 w2 ds line : List Char)
    (ha : isDigit a = true) (hb : isDigit b = true) (hc : isDigit c = true)
    (hd : isDigit d = true) (he : isDigit e = true)
    (hm : m = 'x' ∨ m = 'X' ∨ m = '×')
    (hw1 : ∀ x ∈ w1, x = ' ' ∨ x = '\t') (hw2 : ∀ x ∈ w2, x = ' ' ∨ x = '\t')
    (hds : ds ≠ []) (hds2 : ∀ x ∈ ds, isDigit x = true)
    (hline : line = a :: b :: c :: d :: e :: (w1 ++ m :: (w2 ++ ds))) :
    parseLine line = ⟨String.mk [a, b, c, d, e], toNatOfDigits ds,
      toNatOfDigits ds * 15, String.mk line⟩ := by
  subst hline
  obtain ⟨dh, dt, rfl⟩ : ∃ dh dt, ds = dh :: dt := by
    cases ds with
    | nil => exact absurd rfl hds
    | cons dh dt => exact ⟨dh, dt, rfl⟩
  have hdh : isDigit dh = true := hds2 dh (List.mem_cons_self dh dt)
  have ht5 : take5 (a :: b :: c :: d :: e :: (w1 ++ m :: (w2 ++ dh :: dt)))
      = some ([a, b, c, d, e], w1 ++ m :: (w2 ++ dh :: dt)) := by
    simp [take5, ha, hb, hc, hd, he]
  have hmws : isJsWs m = false := by rcases hm with rfl | rfl | rfl <;> decide
  have hskip1 : skipWs (w1 ++ m :: (w2 ++ dh :: dt)) = m :: (w2 ++ dh :: dt) := by
    rw [skipWs_simple hw1]
    simp [skipWs, List.dropWhile_cons, hmws]
  have hmx : (m == 'x' || m == 'X' || m == '×') = true := by
    rcases hm with rfl | rfl | rfl <;> decide
  have hskip2 : skipWs (w2 ++ dh :: dt) = dh :: dt := by
    rw [skipWs_simple hw2]
    exact skipWs_digit hdh
  have hrd : readDigits (dh :: dt) = some (toNatOfDigits (dh :: dt), []) :=
    readDigits_all hds2 (by simp)
  have hp1At : p1At (a :: b :: c :: d :: e :: (w1 ++ m :: (w2 ++ dh :: dt)))
      = some ([a, b, c, d, e], toNatOfDigits (dh :: dt)) := by
    simp [p1At, ht5, hskip1, hmx, hskip2, hrd]
  have hp1 : p1 (a :: b :: c :: d :: e :: (w1 ++ m :: (w2 ++ dh :: dt)))
      = some ([a, b, c, d, e], toNatOfDigits (dh :: dt)) := by
    rw [p1, hp1At]
  simp [parseLine, hp1]

theorem c4_explicit_count_witness :
    parseLine ("97530 x 2".data) = ⟨"97530", 2, 30, "97530 x 2"⟩ :=
  c4_explicit_count '9' '7' '5' '3' '0' 'x' [' '] [' '] ['2'] ("97530 x 2".data)
    (by decide) (by decide) (by decide) (by decide) (by decide)
    (Or.inl rfl) (by decide) (by decide) (by decide) (by decide) (by decide)

/-! ## Position of the match (C8) -/

/-- C8, amended: each strategy matches at the first position from the left
at which its whole pattern succeeds — so the code is the first five-digit
run from which the strategy's remaining requirements are satisfiable, which
need not be the first five-digit run in the line — and any five digits are
accepted as a code with no validation: a line consisting of just five digit
characters always parses, as one unit of the code they spell. -/
theorem c8_leftmost_match (l cd : List Char) (n : Nat) (a b c d e : Char)
    (h : p1 l = some (cd, n))
    (ha : isDigit a = true) (hb : isDigit b = true) (hc : isDigit c = true)
    (hd : isDigit d = true) (he : isDigit e = true) :
    (∃ i, p1At (l.drop i) = some (cd, n) ∧ ∀ j < i, p1At (l.drop j) = none) ∧
    parseLine [a, b, c, d, e] =
      ⟨String.mk [a, b, c, d, e], 1, 15, String.mk [a, b, c, d, e]⟩ := by
  constructor
  · induction l with
    | nil => simp [p1] at h
    | cons c0 rest ih =>
      cases hAt : p1At (c0 :: rest) with
      | some r =>
        simp only [p1, hAt] at h
        refine ⟨0, ?_, ?_⟩
        · rw [List.drop_zero, hAt, h]
        · intro j hj; omega
      | none =>
        simp only [p1, hAt] at h
        obtain ⟨i, hi, hj⟩ := ih h
        refine ⟨i + 1, ?_, ?_⟩
        · simpa using hi
        · intro j hjlt
          cases j with
          | zero => simpa using hAt
          | succ j' =>
            have hv := hj j' (by omega)
            simpa using hv
  · have h5 : take5 [a, b, c, d, e] = some ([a, b, c, d, e], []) := by
      simp [take5, ha, hb, hc, hd, he]
    have hp1At0 : p1At [a, b, c, d, e] = none := by
      simp [p1At, h5, skipWs]
    have hp1' : p1 [a, b, c, d, e] = none := by
      simp only [p1, hp1At0]
      rfl
    have hp2At0 : p2At [a, b, c, d, e] = none := by
      simp [p2At, h5, rmAt, tail2At, unitKw]
    have hp2' : p2 [a, b, c, d, e] = none := by
      simp only [p2, hp2At0]
      rfl
    have hp3At0 : p3At [a, b, c, d, e] = none := by
      simp [p3At, h5, rmAt, tail3At, tail3Core, skipWs]
    have hp3' : p3 [a, b, c, d, e] = none := by
      simp only [p3, hp3At0]
      rfl
    have hp4' : p4 [a, b, c, d, e] = some [a, b, c, d, e] := by
      simp [p4, h5]
    simp [parseLine, hp1', hp2', hp3', hp4']

theorem c8_leftmost_match_witness :
    parseLine ['9', '7', '5', '3', '0'] = ⟨"97530", 1, 15, "97530"⟩ :=
  (c8_leftmost_match ("12345 97530 x 2".data) ("97530".data) 2 '9' '7' '5' '3' '0'
    (by decide) (by decide) (by decide) (by decide) (by decide) (by decide)).2

/-! ## The units-keyword form (C6) -/

lemma rmAt_none {f : List Char → Option Nat} :
    ∀ l : List Char, (∀ n : Nat, f (l.drop n) = none) → rmAt f l = none := by
  intro l
  induction l with
  | nil =>
    intro h
    simpa [rmAt] using h 0
  | cons c rest ih =>
    intro h
    have h0 : f (c :: rest) = none := by simpa using h 0
    have hrest : rmAt f rest = none := ih (fun n => by simpa using h (n + 1))
    cases hc : isLineTerm c <;> simp [rmAt, hc, h0, hrest]

lemma rmAt_last {f : List Char → Option Nat} (v : Nat) :
    ∀ (pre t : List Char), f t = some v →
      (∀ n : Nat, 0 < n → f (t.drop n) = none) →
      (∀ c ∈ pre, isLineTerm c = false) →
      rmAt f (pre ++ t) = some v := by
  intro pre
  induction pre with
  | nil =>
    intro t hf hsuf hws
    rw [List.nil_append]
    cases t with
    | nil => simpa [rmAt] using hf
    | cons c rest =>
      have hrest : rmAt f rest = none :=
        rmAt_none rest (fun n => by
          have hstep := hsuf (n + 1) (by omega)
          simpa using hstep)
      cases hc : isLineTerm c <;> simp [rmAt, hc, hrest, hf]
  | cons c pre' ih =>
    intro t hf hsuf hpre
    have hc : isLineTerm c = false := hpre c (List.mem_cons_self c pre')
    have hrec := ih t hf hsuf (fun x hx => hpre x (List.mem_cons_of_mem c hx))
    rw [List.cons_append]
    simp [rmAt, hc, hrec]

lemma tail2At_cons_not_u {c : Char} {r : List Char}
    (h : (c == 'u' || c == 'U') = false) : tail2At (c :: r) = none := by
  rcases r with _ | ⟨x1, r1⟩
  · rfl
  rcases r1 with _ | ⟨x2, r2⟩
  · rfl
  rcases r2 with _ | ⟨x3, r3⟩
  · rfl
  simp [tail2At, unitKw, h]

lemma tail2Num_ok (w1 w2 ds : List Char) (sep : Option Char)
    (hw1 : ∀ x ∈ w1, x = ' ' ∨ x = '\t') (hw2 : ∀ x ∈ w2, x = ' ' ∨ x = '\t')
    (hsep : ∀ s0, sep = some s0 → s0 = ':' ∨ s0 = '=')
    (hds2 : ∀ x ∈ ds, isDigit x = true) (hds : ds ≠ []) :
    tail2Num (w1 ++ (sep.toList ++ (w2 ++ ds))) = some (toNatOfDigits ds) := by
  obtain ⟨dh, dt, rfl⟩ : ∃ dh dt, ds = dh :: dt := by
    cases ds with
    | nil => exact absurd rfl hds
    | cons dh dt => exact ⟨dh, dt, rfl⟩
  have hdh : isDigit dh = true := hds2 dh (List.mem_cons_self dh dt)
  have hrd : readDigits (dh :: dt) = some (toNatOfDigits (dh :: dt), []) :=
    readDigits_all hds2 (by simp)
  cases sep with
  | none =>
    show tail2Num (w1 ++ ([] ++ (w2 ++ (dh :: dt)))) = some (toNatOfDigits (dh :: dt))
    have hskip : skipWs (w1 ++ ([] ++ (w2 ++ (dh :: dt)))) = dh :: dt := by
      rw [skipWs_simple hw1, List.nil_append, skipWs_simple hw2]
      exact skipWs_digit hdh
    have hsepOpt : sepOpt (dh :: dt) = dh :: dt := by
      have h1 : (dh == ':') = false := by
        simpa using isDigit_ne hdh (show isDigit ':' = false by decide)
      have h2 : (dh == '=') = false := by
        simpa using isDigit_ne hdh (show isDigit '=' = false by decide)
      simp [sepOpt, h1, h2]
    unfold tail2Num
    rw [hskip, hsepOpt, skipWs_digit hdh, hrd]
  | some s0 =>
    have hs0 := hsep s0 rfl
    have hs0ws : isJsWs s0 = false := by rcases hs0 with rfl | rfl <;> decide
    show tail2Num (w1 ++ (s0 :: (w2 ++ (dh :: dt)))) = some (toNatOfDigits (dh :: dt))
    have hskip : skipWs (w1 ++ (s0 :: (w2 ++ (dh :: dt)))) = s0 :: (w2 ++ (dh :: dt)) := by
      rw [skipWs_simple hw1]
      simp [skipWs, List.dropWhile_cons, hs0ws]
    have hsepOpt : sepOpt (s0 :: (w2 ++ (dh :: dt))) = w2 ++ (dh :: dt) := by
      rcases hs0 with rfl | rfl <;> simp [sepOpt]
    have hskip2 : skipWs (w2 ++ (dh :: dt)) = dh :: dt := by
      rw [skipWs_simple hw2]
      exact skipWs_digit hdh
    unfold tail2Num
    rw [hskip, hsepOpt, hskip2, hrd]

lemma head_not_s (w1 w2 ds : List Char) (sep : Option Char)
    (hw1 : ∀ x ∈ w1, x = ' ' ∨ x = '\t') (hw2 : ∀ x ∈ w2, x = ' ' ∨ x = '\t')
    (hsep : ∀ s0, sep = some s0 → s0 = ':' ∨ s0 = '=')
    (hds2 : ∀ x ∈ ds, isDigit x = true) (hds : ds ≠ []) :
    ∃ hh tt, w1 ++ (sep.toList ++ (w2 ++ ds)) = hh :: tt ∧
      (hh == 's' || hh == 'S') = false := by
  cases w1 with
  | cons x xs =>
    refine ⟨x, xs ++ (sep.toList ++ (w2 ++ ds)), rfl, ?_⟩
    rcases hw1 x (List.mem_cons_self x xs) with rfl | rfl <;> decide
  | nil =>
    cases sep with
    | some s0 =>
      refine ⟨s0, w2 ++ ds, rfl, ?_⟩
      rcases hsep s0 rfl with rfl | rfl <;> decide
    | none =>
      cases w2 with
      | cons x xs =>
        refine ⟨x, xs ++ ds, rfl, ?_⟩
        rcases hw2 x (List.mem_cons_self x xs) with rfl | rfl <;> decide
      | nil =>
        cases ds with
        | nil => exact absurd rfl hds
        | cons dh dt =>
          refine ⟨dh, dt, rfl, ?_⟩
          have h1 : (dh == 's') = false := by
            simpa using isDigit_ne (hds2 dh (List.mem_cons_self dh dt))
              (show isDigit 's' = false by decide)
          have h2 : (dh == 'S') = false := by
            simpa using isDigit_ne (hds2 dh (List.mem_cons_self dh dt))
              (show isDigit 'S' = false by decide)
          simp [h1, h2]

/-- C6: a line starting with a five-digit code, followed by arbitrary
non-line-terminator characters, then the word `unit` or `units`, an optional
`:` or `=` separator (with optional surrounding whitespace) and a final
integer, that does not match the explicit-count pattern, parses to an entry
with that code, `units = n` and `minutes = n * 15`, where `n` is the value
of the integer after the keyword. -/
theorem c6_units_keyword (a b c d e : Char)
    (mid kw w1 w2 ds line : List Char) (sep : Option Char)
    (ha : isDigit a = true) (hb : isDigit b = true) (hc : isDigit c = true)
    (hd : isDigit d = true) (he : isDigit e = true)
    (hkw : kw = ['u', 'n', 'i', 't'] ∨ kw = ['u', 'n', 'i', 't', 's'])
    (hmid : ∀ x ∈ mid, isLineTerm x = false)
    (hw1 : ∀ x ∈ w1, x = ' ' ∨ x = '\t') (hw2 : ∀ x ∈ w2, x = ' ' ∨ x = '\t')
    (hsep : ∀ s0, sep = some s0 → s0 = ':' ∨ s0 = '=')
    (hds : ds ≠ []) (hds2 : ∀ x ∈ ds, isDigit x = true)
    (hline : line = a :: b :: c :: d :: e ::
      (mid ++ (kw ++ (w1 ++ (sep.toList ++ (w2 ++ ds))))))
    (hp1 : p1 line = none) :
    parseLine line = ⟨String.mk [a, b, c, d, e], toNatOfDigits ds,
      toNatOfDigits ds * 15, String.mk line⟩ := by
  subst hline
  have hR := tail2Num_ok w1 w2 ds sep hw1 hw2 hsep hds2 hds
  have hTail : tail2At (kw ++ (w1 ++ (sep.toList ++ (w2 ++ ds)))) =
      some (toNatOfDigits ds) := by
    rcases hkw with rfl | rfl
    · obtain ⟨hh, tt, hHT, hhs⟩ := head_not_s w1 w2 ds sep hw1 hw2 hsep hds2 hds
      have hu : unitKw ('u' :: 'n' :: 'i' :: 't' :: (w1 ++ (sep.toList ++ (w2 ++ ds)))) =
          some (w1 ++ (sep.toList ++ (w2 ++ ds))) := by
        simp [unitKw]
      show tail2At ('u' :: 'n' :: 'i' :: 't' :: (w1 ++ (sep.toList ++ (w2 ++ ds)))) =
        some (toNatOfDigits ds)
      simp only [tail2At, hu]
      rw [hHT]
      simp [hhs]
      rw [← hHT]
      exact hR
    · have hu : unitKw ('u' :: 'n' :: 'i' :: 't' :: 's' ::
          (w1 ++ (sep.toList ++ (w2 ++ ds)))) =
          some ('s' :: (w1 ++ (sep.toList ++ (w2 ++ ds)))) := by
        simp [unitKw]
      show tail2At ('u' :: 'n' :: 'i' :: 't' :: 's' ::
        (w1 ++ (sep.toList ++ (w2 ++ ds)))) = some (toNatOfDigits ds)
      simp only [tail2At, hu]
      simp
      exact hR
  have hcons : kw ++ (w1 ++ (sep.toList ++ (w2 ++ ds))) =
      'u' :: (kw.tail ++ (w1 ++ (sep.toList ++ (w2 ++ ds)))) := by
    rcases hkw with rfl | rfl <;> rfl
  have hNotU : ∀ x ∈ kw.tail ++ (w1 ++ (sep.toList ++ (w2 ++ ds))),
      (x == 'u' || x == 'U') = false := by
    intro x hx
    rcases List.mem_append.mp hx with hx | hx
    · rcases hkw with rfl | rfl
      · simp at hx
        rcases hx with rfl | rfl | rfl <;> decide
      · simp at hx
        rcases hx with rfl | rfl | rfl | rfl <;> decide
    · rcases List.mem_append.mp hx with hx | hx
      · rcases hw1 x hx with rfl | rfl <;> decide
      · rcases List.mem_append.mp hx with hx | hx
        · cases sep with
          | none => simp at hx
          | some s0 =>
            have hx0 : x = s0 := by simpa using hx
            subst hx0
            rcases hsep x rfl with rfl | rfl <;> decide
        · rcases List.mem_append.mp hx with hx | hx
          · rcases hw2 x hx with rfl | rfl <;> decide
          · have h1 : (x == 'u') = false := by
              simpa using isDigit_ne (hds2 x hx) (show isDigit 'u' = false by decide)
            have h2 : (x == 'U') = false := by
              simpa using isDigit_ne (hds2 x hx) (show isDigit 'U' = false by decide)
            simp [h1, h2]
  have hSuf : ∀ n : Nat, 0 < n →
      tail2At ((kw ++ (w1 ++ (sep.toList ++ (w2 ++ ds)))).drop n) = none := by
    intro n hn
    rw [hcons]
    obtain ⟨m, rfl⟩ : ∃ m, n = m + 1 := ⟨n - 1, by omega⟩
    rw [List.drop_succ_cons]
    rcases hd2 : (kw.tail ++ (w1 ++ (sep.toList ++ (w2 ++ ds)))).drop m with _ | ⟨x, r⟩
    · rfl
    · have hxmem : x ∈ kw.tail ++ (w1 ++ (sep.toList ++ (w2 ++ ds))) :=
        List.drop_subset m _ (by rw [hd2]; exact List.mem_cons_self x r)
      exact tail2At_cons_not_u (hNotU x hxmem)
  have hrm : rmAt tail2At (mid ++ (kw ++ (w1 ++ (sep.toList ++ (w2 ++ ds))))) =
      some (toNatOfDigits ds) :=
    rmAt_last (toNatOfDigits ds) mid _ hTail hSuf hmid
  have ht5 : take5 (a :: b :: c :: d :: e ::
      (mid ++ (kw ++ (w1 ++ (sep.toList ++ (w2 ++ ds)))))) =
      some ([a, b, c, d, e], mid ++ (kw ++ (w1 ++ (sep.toList ++ (w2 ++ ds))))) := by
    simp [take5, ha, hb, hc, hd, he]
  have hp2At : p2At (a :: b :: c :: d :: e ::
      (mid ++ (kw ++ (w1 ++ (sep.toList ++ (w2 ++ ds)))))) =
      some ([a, b, c, d, e], toNatOfDigits ds) := by
    simp [p2At, ht5, hrm]
  have hp2 : p2 (a :: b :: c :: d :: e ::
      (mid ++ (kw ++ (w1 ++ (sep.toList ++ (w2 ++ ds)))))) =
      some ([a, b, c, d, e], toNatOfDigits ds) := by
    rw [p2, hp2At]
  simp [parseLine, hp1, hp2]

theorem c6_units_keyword_witness :
    parseLine ("97112, units:1".data) = ⟨"97112", 1, 15, "97112, units:1"⟩ :=
  c6_units_keyword '9' '7' '1' '1' '2' [',', ' '] ['u', 'n', 'i', 't', 's']
    [] [] ['1'] ("97112, units:1".data) (some ':')
    (by decide) (by decide) (by decide) (by decide) (by decide)
    (Or.inr rfl) (by decide) (by decide) (by decide)
    (fun s0 h => Or.inl (Option.some.inj h).symm)
    (by decide) (by decide) (by decide) (by decide)
